/-
Verification of the composition-converter core of
MaterialsCal-ConvertAtomic2Weight (src/02_GUI.py).

The embedding models the core functions over exact rational arithmetic
(the spec's "ideal no-rounding arithmetic", §8):

  * Compositions (Python dicts, insertion-ordered) are association lists
    `List (String × ℚ)`; the dict-building step `comp_dict[elem] = val`
    is `dictInsert` (update in place, append if absent), which is the
    semantics of Python dict assignment on the unique-key lists the
    program builds.
  * The atomic mass table `ELEMENT_MOLAR_MASS` is the in-source fallback
    dictionary covering H through Zn (02_GUI.py line 34); the conversion
    functions take the table as an explicit argument (spec §9 models the
    process-wide global as injected immutable state).
  * Python `ValueError`s become the `Err` inductive; float division by
    zero (`ZeroDivisionError`) becomes the `Err.divisionByZero` branch
    guarded explicitly, since division by zero in ℚ is total.
  * The regular-expression scan of `parse_composition_input` is written
    out as an explicit matcher for the fixed pattern of the source,
    r"['\x22]?([A-Za-z][a-z]?)['\x22]?\s*[:=]\s*(\d+\.?\d*)", with
    `\d`/`\s` read as their ASCII classes and `re.findall` as the
    leftmost non-overlapping scan.  The only optional piece that needs
    backtracking is the second symbol letter `[a-z]?`; both quote
    options are forced (a quote character can never satisfy the
    alternative continuation), so they are matched greedily.
-/
import Mathlib

namespace MaterialsCal

/-- Composition: insertion-ordered mapping from element symbol to a
percentage value, as produced by a Python dict. -/
abbrev Composition := List (String × ℚ)

/-- Sum of the values of a composition (Python `sum(d.values())`). -/
def sumVals (d : Composition) : ℚ := (d.map (fun p => p.2)).sum

/-- The fallback atomic-mass dictionary hard-coded in
`get_element_atomic_masses` (02_GUI.py line 34), covering H through Zn. -/
def ELEMENT_MOLAR_MASS : Composition :=
  [("H", 1.008), ("He", 4.0026), ("Li", 6.94), ("Be", 9.0122), ("B", 10.81),
   ("C", 12.011), ("N", 14.007), ("O", 15.999), ("F", 18.998), ("Ne", 20.180),
   ("Na", 22.990), ("Mg", 24.305), ("Al", 26.982), ("Si", 28.085), ("P", 30.974),
   ("S", 32.06), ("Cl", 35.45), ("Ar", 39.948), ("K", 39.098), ("Ca", 40.078),
   ("Sc", 44.956), ("Ti", 47.867), ("V", 50.942), ("Cr", 51.996), ("Mn", 54.938),
   ("Fe", 55.845), ("Co", 58.933), ("Ni", 58.693), ("Cu", 63.546), ("Zn", 65.38)]

/-- Table lookup: `ELEMENT_MOLAR_MASS[element]`, `none` when the
`element not in ELEMENT_MOLAR_MASS` test of the source would fire. -/
def lookupMass (e : String) : Option ℚ :=
  (ELEMENT_MOLAR_MASS.find? (fun p => p.1 == e)).map (fun p => p.2)

/-- The typed errors of the core, one per `raise` site of 02_GUI.py:
the sum-validation `ValueError` (line 49, carrying the computed total),
the missing-element `ValueError` (lines 57/70, carrying the symbol),
the parser `ValueError` (line 93), and float `ZeroDivisionError`. -/
inductive Err where
  | compositionSum (total : ℚ)
  | unknownElement (symbol : String)
  | parseError
  | divisionByZero
  deriving DecidableEq, Repr

instance {ε α : Type} [DecidableEq ε] [DecidableEq α] : DecidableEq (Except ε α) :=
  fun x y =>
    match x, y with
    | .error e, .error f =>
      if h : e = f then .isTrue (by rw [h])
      else .isFalse (fun hh => by injection hh with h2; exact h h2)
    | .error _, .ok _ => .isFalse (fun hh => by injection hh)
    | .ok _, .error _ => .isFalse (fun hh => by injection hh)
    | .ok a, .ok b =>
      if h : a = b then .isTrue (by rw [h])
      else .isFalse (fun hh => by injection hh with h2; exact h h2)

/-- `check_input_composition` (02_GUI.py lines 45-49): raise unless the
values sum to 100 within 0.01 absolute tolerance. -/
def check_input_composition (comp_dict : Composition) : Except Err Unit :=
  let total := sumVals comp_dict
  if ¬ (|total - 100| ≤ 0.01) then .error (.compositionSum total) else .ok ()

/-- The molar-amount loop of `wt_to_at` (02_GUI.py lines 54-58): for each
element in order, fail on the first symbol missing from the table, else
record `wt_percent / mass`. -/
def molar_amounts (table : String → Option ℚ) : Composition → Except Err Composition
  | [] => .ok []
  | (e, w) :: rest =>
    match table e with
    | none => .error (.unknownElement e)
    | some m =>
      match molar_amounts table rest with
      | .error err => .error err
      | .ok tl => .ok ((e, w / m) :: tl)

/-- The mass-contribution loop of `at_to_wt` (02_GUI.py lines 67-71):
for each element in order, fail on the first symbol missing from the
table, else record `at_percent * mass`. -/
def mass_contribs (table : String → Option ℚ) : Composition → Except Err Composition
  | [] => .ok []
  | (e, a) :: rest =>
    match table e with
    | none => .error (.unknownElement e)
    | some m =>
      match mass_contribs table rest with
      | .error err => .error err
      | .ok tl => .ok ((e, a * m) :: tl)

/-- `wt_to_at` (02_GUI.py lines 51-62): validate the sum, build molar
amounts, normalise by their total times 100.  A zero total makes the
source's float division raise `ZeroDivisionError`. -/
def wt_to_at (table : String → Option ℚ) (wt_dict : Composition) : Except Err Composition :=
  (check_input_composition wt_dict).bind fun _ =>
  (molar_amounts table wt_dict).bind fun ma =>
  let total_moles := sumVals ma
  if total_moles = 0 then .error .divisionByZero
  else .ok (ma.map (fun p => (p.1, p.2 / total_moles * 100)))

/-- `at_to_wt` (02_GUI.py lines 64-75): validate the sum, build mass
contributions, normalise by their total times 100.  A zero total makes
the source's float division raise `ZeroDivisionError`. -/
def at_to_wt (table : String → Option ℚ) (at_dict : Composition) : Except Err Composition :=
  (check_input_composition at_dict).bind fun _ =>
  (mass_contribs table at_dict).bind fun ms =>
  let total_mass := sumVals ms
  if total_mass = 0 then .error .divisionByZero
  else .ok (ms.map (fun p => (p.1, p.2 / total_mass * 100)))

/-- Mass of a symbol under a table, defaulting to 0 when absent; used
only to state formulas about inputs whose symbols are all present. -/
def massOf (table : String → Option ℚ) (e : String) : ℚ := (table e).getD 0

/-- The total of molar amounts `Σ wt_i / mass_i` (02_GUI.py line 60). -/
def molarTotal (table : String → Option ℚ) (wt : Composition) : ℚ :=
  (wt.map (fun p => p.2 / massOf table p.1)).sum

/-- The total of mass contributions `Σ at_i * mass_i` (02_GUI.py line 73). -/
def massTotal (table : String → Option ℚ) (at_dict : Composition) : ℚ :=
  (at_dict.map (fun p => p.2 * massOf table p.1)).sum

/-! ### The input parser (`parse_composition_input`, 02_GUI.py lines 77-98) -/

/-- Python `\s` (ASCII range): space, tab, newline, carriage return,
vertical tab, form feed. -/
def pyIsSpace (c : Char) : Bool :=
  c == ' ' || c == '\t' || c == '\n' || c == '\r' || c == Char.ofNat 11 || c == Char.ofNat 12

/-- Python `str.strip()` on the character list. -/
def pyStrip (cs : List Char) : List Char :=
  ((cs.dropWhile pyIsSpace).reverse.dropWhile pyIsSpace).reverse

/-- The quote characters of the `['\x22]?` pieces of the pattern. -/
def isQuoteChar (c : Char) : Bool :=
  c == Char.ofNat 39 || c == Char.ofNat 34

/-- A matched numeric token `\d+\.?\d*`, kept as digit strings so that
the scan stays decidable; `toRat` is the exact value Python's `float`
conversion denotes under ideal arithmetic. -/
structure NumLit where
  intPart : Nat
  fracPart : Nat
  fracLen : Nat
  deriving DecidableEq, Repr

/-- The rational value of a matched decimal numeral. -/
def NumLit.toRat (n : NumLit) : ℚ := n.intPart + (n.fracPart : ℚ) / 10 ^ n.fracLen

/-- Value of a string of ASCII digits. -/
def digitsVal (ds : List Char) : Nat := ds.foldl (fun acc d => 10 * acc + (d.toNat - 48)) 0

/-- Match `\d+\.?\d*` at the head of the input (greedy; nothing after it
in the pattern, so no backtracking arises). -/
def matchNumber (cs : List Char) : Option (NumLit × List Char) :=
  let ds := cs.takeWhile Char.isDigit
  if ds.isEmpty then none
  else
    match cs.dropWhile Char.isDigit with
    | c :: rest2 =>
      if c = '.' then
        let fs := rest2.takeWhile Char.isDigit
        some (⟨digitsVal ds, digitsVal fs, fs.length⟩, rest2.dropWhile Char.isDigit)
      else some (⟨digitsVal ds, 0, 0⟩, c :: rest2)
    | [] => some (⟨digitsVal ds, 0, 0⟩, [])

/-- Match an optional quote (`['\x22]?`): if the head is a quote it must
be consumed, since the continuation can never start with a quote. -/
def dropQuote (cs : List Char) : List Char :=
  match cs with
  | c :: rest => if isQuoteChar c then rest else cs
  | [] => []

/-- Match the part of the pattern after the symbol group:
`['\x22]?\s*[:=]\s*(\d+\.?\d*)`. -/
def matchSepNumber (cs : List Char) : Option (NumLit × List Char) :=
  match (dropQuote cs).dropWhile pyIsSpace with
  | c :: rest =>
    if c = ':' || c = '=' then matchNumber (rest.dropWhile pyIsSpace) else none
  | [] => none

/-- Match the whole pattern at the head of the input, returning the
symbol group, the numeric group and the rest.  The greedy optional
`[a-z]?` backtracks: a two-letter symbol is preferred, a one-letter
symbol is tried if the continuation fails. -/
def matchToken (cs : List Char) : Option (String × NumLit × List Char) :=
  match dropQuote cs with
  | c1 :: rest1 =>
    if c1.isAlpha then
      match rest1 with
      | c2 :: rest2 =>
        if c2.isLower then
          match matchSepNumber rest2 with
          | some (n, rem) => some (String.mk [c1, c2], n, rem)
          | none =>
            match matchSepNumber rest1 with
            | some (n, rem) => some (String.mk [c1], n, rem)
            | none => none
        else
          match matchSepNumber rest1 with
          | some (n, rem) => some (String.mk [c1], n, rem)
          | none => none
      | [] => none
    else none
  | [] => none

/-- `re.findall` for the pattern: attempt a match at each successive
position, emitting non-overlapping matches left to right (the pattern
cannot match the empty string, so every match advances the scan). -/
def scanTokens : Nat → List Char → List (String × NumLit)
  | 0, _ => []
  | _ + 1, [] => []
  | fuel + 1, c :: rest =>
    match matchToken (c :: rest) with
    | some (s, n, rem) => (s, n) :: scanTokens fuel rem
    | none => scanTokens fuel rest

/-- `re.findall(pattern, user_str)` (02_GUI.py line 91). -/
def re_findall (user_str : String) : List (String × NumLit) :=
  scanTokens user_str.data.length user_str.data

/-- Python dict assignment `d[k] = v` on an insertion-ordered list with
unique keys: update in place, append if absent. -/
def dictInsert : Composition → String → ℚ → Composition
  | [], k, v => [(k, v)]
  | p :: rest, k, v => if p.1 = k then (k, v) :: rest else p :: dictInsert rest k v

/-- The dict-building loop of `parse_composition_input` (02_GUI.py lines
95-97): `comp_dict[elem] = float(val)` over the matches in order. -/
def buildCompDict (ms : List (String × ℚ)) : Composition :=
  ms.foldl (fun d p => dictInsert d p.1 p.2) []

/-- Stage 2 of `parse_composition_input` (02_GUI.py lines 89-98): scan
for `Element:50` / `Element = 50` shaped tokens; raise the
"Unrecognized format" `ValueError` when there is no match. -/
def token_scan_stage (user_str : String) : Except Err Composition :=
  let ms := re_findall user_str
  if ms.isEmpty then .error .parseError
  else .ok (buildCompDict (ms.map (fun p => (p.1, p.2.toRat))))

/-- Match a quoted Python string literal (no escape sequences: the keys
of interest are element symbols). -/
def parseQuotedKey (cs : List Char) : Option (String × List Char) :=
  match cs with
  | c :: rest =>
    if isQuoteChar c then
      match rest.dropWhile (fun d => d ≠ c) with
      | _ :: rest2 => some (String.mk (rest.takeWhile (fun d => d ≠ c)), rest2)
      | [] => none
    else none
  | [] => none

/-- Comma-separated `"key": number` pairs (the inside of a dict
literal), returned in textual order; a trailing comma is legal in a
Python literal. -/
def parseInner : Nat → List Char → Option (List (String × NumLit))
  | 0, _ => none
  | fuel + 1, cs =>
    match parseQuotedKey (cs.dropWhile pyIsSpace) with
    | none => none
    | some (k, cs1) =>
      match cs1.dropWhile pyIsSpace with
      | c :: cs2 =>
        if c = ':' then
          match matchNumber (cs2.dropWhile pyIsSpace) with
          | none => none
          | some (n, cs3) =>
            match cs3.dropWhile pyIsSpace with
            | [] => some [(k, n)]
            | c2 :: cs4 =>
              if c2 = ',' then
                if ((cs4.dropWhile pyIsSpace).isEmpty : Bool) then some [(k, n)]
                else (parseInner fuel cs4).map (fun tl => (k, n) :: tl)
              else none
        else none
      | [] => none

/-- The key/value pairs of a brace-delimited dict literal, in textual
order, or `none` when the input is not such a literal. -/
def dict_literal_tokens (user_str : String) : Option (List (String × NumLit)) :=
  let t := pyStrip user_str.data
  match t with
  | [] => none
  | c :: rest =>
    if c = Char.ofNat 123 then
      match rest.reverse with
      | [] => none
      | lastc :: revInner =>
        if lastc = Char.ofNat 125 then
          let inner := revInner.reverse
          if ((inner.dropWhile pyIsSpace).isEmpty : Bool) then some []
          else parseInner inner.length inner
        else none
    else none

/-- Stage 1 of `parse_composition_input` (02_GUI.py lines 79-87).
Modelled from the spec: the source runs Python `eval` on the stripped
string when it is brace-delimited and keeps the result when it is a
dict, swallowing every failure; the Python evaluator itself is not part
of the repository.  Following the spec's normative reading (§9: a
faithful reimplementation "must replace it with a strict
structured-literal parser accepting only string-keyed numeric-valued
mappings"), the stage is modelled as exactly that parser: quoted string
keys, non-negative decimal values, duplicate keys resolved by Python
dict semantics (later wins).  Every input outside this grammar is
treated as a swallowed failure (`none`), falling through to the token
scan. -/
def parse_dict_literal (user_str : String) : Option Composition :=
  (dict_literal_tokens user_str).map
    (fun ps => buildCompDict (ps.map (fun p => (p.1, p.2.toRat))))

/-- `parse_composition_input` (02_GUI.py lines 77-98): try the dict
literal and return its mapping when it succeeds; on any failure of that
stage fall through silently to the token scan. -/
def parse_composition_input (user_str : String) : Except Err Composition :=
  (parse_dict_literal user_str).elim (token_scan_stage user_str) (fun d => .ok d)

/-! ### Helper lemmas -/

theorem sumVals_nil : sumVals [] = 0 := rfl

theorem sumVals_cons (p : String × ℚ) (l : Composition) :
    sumVals (p :: l) = p.2 + sumVals l := by
  simp [sumVals]

theorem sumVals_map (l : Composition) (f : String × ℚ → ℚ) :
    sumVals (l.map (fun p => (p.1, f p))) = (l.map f).sum := by
  induction l with
  | nil => rfl
  | cons p t ih =>
    simp only [sumVals, List.map_map, List.map_cons, List.sum_cons] at ih ⊢
    rw [ih]

theorem sum_map_mul_left (l : Composition) (c : ℚ) (f : String × ℚ → ℚ) :
    (l.map (fun p => c * f p)).sum = c * (l.map f).sum := by
  induction l with
  | nil => simp
  | cons p t ih => simp [ih]; ring

theorem sum_map_congr (l : Composition) (f g : String × ℚ → ℚ)
    (h : ∀ p ∈ l, f p = g p) : (l.map f).sum = (l.map g).sum := by
  induction l with
  | nil => rfl
  | cons p t ih =>
    simp only [List.map_cons, List.sum_cons]
    rw [h p (by simp), ih (fun q hq => h q (by simp [hq]))]

theorem sum_eq_zero_of_nonneg (l : List ℚ) (h : ∀ x ∈ l, 0 ≤ x) (hs : l.sum = 0) :
    ∀ x ∈ l, x = 0 := by
  induction l with
  | nil => simp
  | cons a t ih =>
    have ha : 0 ≤ a := h a (by simp)
    have ht : 0 ≤ t.sum := List.sum_nonneg (fun x hx => h x (by simp [hx]))
    simp only [List.sum_cons] at hs
    have ha0 : a = 0 := by linarith
    have hts : t.sum = 0 := by linarith
    intro x hx
    rcases List.mem_cons.mp hx with h1 | h1
    · rw [h1, ha0]
    · exact ih (fun y hy => h y (by simp [hy])) hts x h1

/-- Every mass in the fallback table is strictly positive. -/
theorem lookupMass_pos : ∀ e m, lookupMass e = some m → 0 < m := by
  intro e m h
  simp only [lookupMass, Option.map_eq_some'] at h
  obtain ⟨p, hfind, hp2⟩ := h
  have hmem : p ∈ ELEMENT_MOLAR_MASS := List.mem_of_find?_eq_some hfind
  have : 0 < p.2 := by
    simp only [ELEMENT_MOLAR_MASS, List.mem_cons, List.not_mem_nil, or_false] at hmem
    rcases hmem with h|h|h|h|h|h|h|h|h|h|h|h|h|h|h|h|h|h|h|h|h|h|h|h|h|h|h|h|h|h <;>
      (rw [h]; norm_num)
  rw [← hp2]; exact this

/-- When every symbol is present, the molar-amount loop succeeds with
the per-element quotients. -/
theorem molar_amounts_ok (table : String → Option ℚ) (wt : Composition)
    (h : ∀ p ∈ wt, (table p.1).isSome) :
    molar_amounts table wt = .ok (wt.map (fun p => (p.1, p.2 / massOf table p.1))) := by
  induction wt with
  | nil => rfl
  | cons p t ih =>
    obtain ⟨m, hm⟩ := Option.isSome_iff_exists.mp (h p (by simp))
    have ht := ih (fun q hq => h q (by simp [hq]))
    obtain ⟨e, w⟩ := p
    simp only [molar_amounts, hm, ht, List.map_cons]
    simp [massOf, hm]

/-- When every symbol is present, the mass-contribution loop succeeds
with the per-element products. -/
theorem mass_contribs_ok (table : String → Option ℚ) (at_dict : Composition)
    (h : ∀ p ∈ at_dict, (table p.1).isSome) :
    mass_contribs table at_dict = .ok (at_dict.map (fun p => (p.1, p.2 * massOf table p.1))) := by
  induction at_dict with
  | nil => rfl
  | cons p t ih =>
    obtain ⟨m, hm⟩ := Option.isSome_iff_exists.mp (h p (by simp))
    have ht := ih (fun q hq => h q (by simp [hq]))
    obtain ⟨e, w⟩ := p
    simp only [mass_contribs, hm, ht, List.map_cons]
    simp [massOf, hm]

theorem except_ok_bind {ε α β : Type} (x : α) (f : α → Except ε β) :
    (Except.ok x).bind f = f x := rfl

/-- A valid sum makes the validator succeed. -/
theorem check_input_composition_ok (comp : Composition)
    (hsum : |sumVals comp - 100| ≤ 0.01) :
    check_input_composition comp = .ok () := by
  rw [check_input_composition]
  exact if_neg (not_not_intro hsum)

/-- Closed form of `wt_to_at` on a valid input with nonzero molar total. -/
theorem wt_to_at_eq (table : String → Option ℚ) (wt : Composition)
    (hsum : |sumVals wt - 100| ≤ 0.01)
    (hpres : ∀ p ∈ wt, (table p.1).isSome)
    (hS : molarTotal table wt ≠ 0) :
    wt_to_at table wt =
      .ok (wt.map (fun p =>
        (p.1, p.2 / massOf table p.1 / molarTotal table wt * 100))) := by
  have hma := molar_amounts_ok table wt hpres
  have hsv : sumVals (wt.map (fun p => (p.1, p.2 / massOf table p.1))) = molarTotal table wt :=
    sumVals_map wt (fun p => p.2 / massOf table p.1)
  simp only [wt_to_at, check_input_composition_ok wt hsum, hma, except_ok_bind, hsv,
    if_neg hS, List.map_map]
  rfl

/-- Closed form of `at_to_wt` on a valid input with nonzero mass total. -/
theorem at_to_wt_eq (table : String → Option ℚ) (at_dict : Composition)
    (hsum : |sumVals at_dict - 100| ≤ 0.01)
    (hpres : ∀ p ∈ at_dict, (table p.1).isSome)
    (hT : massTotal table at_dict ≠ 0) :
    at_to_wt table at_dict =
      .ok (at_dict.map (fun p =>
        (p.1, p.2 * massOf table p.1 / massTotal table at_dict * 100))) := by
  have hms := mass_contribs_ok table at_dict hpres
  have hsv : sumVals (at_dict.map (fun p => (p.1, p.2 * massOf table p.1)))
      = massTotal table at_dict :=
    sumVals_map at_dict (fun p => p.2 * massOf table p.1)
  simp only [at_to_wt, check_input_composition_ok at_dict hsum, hms, except_ok_bind, hsv,
    if_neg hT, List.map_map]
  rfl

/-- A valid sum is strictly positive. -/
theorem sumVals_pos_of_valid (wt : Composition) (hsum : |sumVals wt - 100| ≤ 0.01) :
    0 < sumVals wt := by
  have h := (abs_le.mp hsum).1
  norm_num at h ⊢
  linarith

/-- With non-negative values, positive masses and a valid sum, the
molar total is strictly positive. -/
theorem molarTotal_pos (table : String → Option ℚ) (wt : Composition)
    (hnn : ∀ p ∈ wt, 0 ≤ p.2)
    (hsum : |sumVals wt - 100| ≤ 0.01)
    (hpos : ∀ e m, table e = some m → 0 < m)
    (hpres : ∀ p ∈ wt, (table p.1).isSome) :
    0 < molarTotal table wt := by
  have hmass : ∀ p ∈ wt, 0 < massOf table p.1 := by
    intro p hp
    obtain ⟨m, hm⟩ := Option.isSome_iff_exists.mp (hpres p hp)
    simpa [massOf, hm] using hpos p.1 m hm
  have hterm : ∀ x ∈ wt.map (fun p => p.2 / massOf table p.1), 0 ≤ x := by
    intro x hx
    obtain ⟨p, hp, rfl⟩ := List.mem_map.mp hx
    exact div_nonneg (hnn p hp) (le_of_lt (hmass p hp))
  have hge : 0 ≤ molarTotal table wt := List.sum_nonneg hterm
  rcases eq_or_lt_of_le hge with h0 | h0
  · exfalso
    have hall := sum_eq_zero_of_nonneg _ hterm h0.symm
    have hz : ∀ p ∈ wt, p.2 = 0 := by
      intro p hp
      have := hall (p.2 / massOf table p.1) (List.mem_map.mpr ⟨p, hp, rfl⟩)
      have hm := hmass p hp
      rcases div_eq_zero_iff.mp this with h | h
      · exact h
      · exact absurd h (ne_of_gt hm)
    have : sumVals wt = 0 := by
      have : wt.map (fun p => p.2) = wt.map (fun _ => (0 : ℚ)) :=
        List.map_congr_left (fun p hp => hz p hp)
      simp [sumVals, this]
    have hpos100 := sumVals_pos_of_valid wt hsum
    rw [this] at hpos100
    exact lt_irrefl 0 hpos100
  · exact h0

/-- With non-negative values, positive masses and a valid sum, the
mass total is strictly positive. -/
theorem massTotal_pos (table : String → Option ℚ) (at_dict : Composition)
    (hnn : ∀ p ∈ at_dict, 0 ≤ p.2)
    (hsum : |sumVals at_dict - 100| ≤ 0.01)
    (hpos : ∀ e m, table e = some m → 0 < m)
    (hpres : ∀ p ∈ at_dict, (table p.1).isSome) :
    0 < massTotal table at_dict := by
  have hmass : ∀ p ∈ at_dict, 0 < massOf table p.1 := by
    intro p hp
    obtain ⟨m, hm⟩ := Option.isSome_iff_exists.mp (hpres p hp)
    simpa [massOf, hm] using hpos p.1 m hm
  have hterm : ∀ x ∈ at_dict.map (fun p => p.2 * massOf table p.1), 0 ≤ x := by
    intro x hx
    obtain ⟨p, hp, rfl⟩ := List.mem_map.mp hx
    exact mul_nonneg (hnn p hp) (le_of_lt (hmass p hp))
  have hge : 0 ≤ massTotal table at_dict := List.sum_nonneg hterm
  rcases eq_or_lt_of_le hge with h0 | h0
  · exfalso
    have hall := sum_eq_zero_of_nonneg _ hterm h0.symm
    have hz : ∀ p ∈ at_dict, p.2 = 0 := by
      intro p hp
      have := hall (p.2 * massOf table p.1) (List.mem_map.mpr ⟨p, hp, rfl⟩)
      have hm := hmass p hp
      rcases mul_eq_zero.mp this with h | h
      · exact h
      · exact absurd h (ne_of_gt hm)
    have : sumVals at_dict = 0 := by
      have : at_dict.map (fun p => p.2) = at_dict.map (fun _ => (0 : ℚ)) :=
        List.map_congr_left (fun p hp => hz p hp)
      simp [sumVals, this]
    have hpos100 := sumVals_pos_of_valid at_dict hsum
    rw [this] at hpos100
    exact lt_irrefl 0 hpos100
  · exact h0

/-- Normalising a composition by its (nonzero) value total makes the
values sum to exactly 100. -/
theorem sumVals_normalize (l : Composition) (hS : sumVals l ≠ 0) :
    sumVals (l.map (fun p => (p.1, p.2 / sumVals l * 100))) = 100 := by
  rw [sumVals_map]
  have h1 : (l.map (fun p => p.2 / sumVals l * 100)).sum
      = (l.map (fun p => (100 / sumVals l) * p.2)).sum :=
    sum_map_congr l _ _ (fun p _ => by ring)
  rw [h1, sum_map_mul_left]
  show 100 / sumVals l * sumVals l = 100
  field_simp

/-- The molar-amount loop fails with the first missing symbol. -/
theorem molar_amounts_first_missing (table : String → Option ℚ) (comp : Composition)
    (q : String × ℚ) (h : comp.find? (fun p => (table p.1).isNone) = some q) :
    molar_amounts table comp = .error (.unknownElement q.1) := by
  induction comp with
  | nil => simp at h
  | cons p t ih =>
    by_cases hp : ((table p.1).isNone : Bool)
    · rw [List.find?] at h
      simp only [hp] at h
      obtain rfl : p = q := by injection h
      have hnone : table p.1 = none := Option.isNone_iff_eq_none.mp hp
      obtain ⟨e, w⟩ := p
      simp only [molar_amounts, hnone]
    · rw [List.find?] at h
      simp only [Bool.not_eq_true] at hp
      simp only [hp] at h
      have hsome : ∃ m, table p.1 = some m := by
        rcases ho : table p.1 with _ | m
        · simp [ho] at hp
        · exact ⟨m, rfl⟩
      obtain ⟨m, hm⟩ := hsome
      obtain ⟨e, w⟩ := p
      simp only [molar_amounts, hm, ih h]

/-- The mass-contribution loop fails with the first missing symbol. -/
theorem mass_contribs_first_missing (table : String → Option ℚ) (comp : Composition)
    (q : String × ℚ) (h : comp.find? (fun p => (table p.1).isNone) = some q) :
    mass_contribs table comp = .error (.unknownElement q.1) := by
  induction comp with
  | nil => simp at h
  | cons p t ih =>
    by_cases hp : ((table p.1).isNone : Bool)
    · rw [List.find?] at h
      simp only [hp] at h
      obtain rfl : p = q := by injection h
      have hnone : table p.1 = none := Option.isNone_iff_eq_none.mp hp
      obtain ⟨e, w⟩ := p
      simp only [mass_contribs, hnone]
    · rw [List.find?] at h
      simp only [Bool.not_eq_true] at hp
      simp only [hp] at h
      have hsome : ∃ m, table p.1 = some m := by
        rcases ho : table p.1 with _ | m
        · simp [ho] at hp
        · exact ⟨m, rfl⟩
      obtain ⟨m, hm⟩ := hsome
      obtain ⟨e, w⟩ := p
      simp only [mass_contribs, hm, ih h]

/-- Python dict assignment never empties a dict. -/
theorem dictInsert_ne_nil (d : Composition) (k : String) (v : ℚ) :
    dictInsert d k v ≠ [] := by
  cases d with
  | nil => simp [dictInsert]
  | cons p rest =>
    rw [dictInsert]
    split <;> simp

theorem foldl_dictInsert_ne_nil (ms : List (String × ℚ)) (d : Composition) (hd : d ≠ []) :
    ms.foldl (fun d p => dictInsert d p.1 p.2) d ≠ [] := by
  induction ms generalizing d with
  | nil => simpa using hd
  | cons m t ih => exact ih (dictInsert d m.1 m.2) (dictInsert_ne_nil d m.1 m.2)

/-- A dict built from at least one match is non-empty. -/
theorem buildCompDict_ne_nil (ms : List (String × ℚ)) (h : ms ≠ []) :
    buildCompDict ms ≠ [] := by
  cases ms with
  | nil => exact absurd rfl h
  | cons m t =>
    show (m :: t).foldl (fun d p => dictInsert d p.1 p.2) [] ≠ []
    rw [List.foldl_cons]
    exact foldl_dictInsert_ne_nil t _ (dictInsert_ne_nil [] m.1 m.2)

/-- Looking up a key right after assigning it returns the new value. -/
theorem find?_dictInsert (d : Composition) (k : String) (v : ℚ) :
    (dictInsert d k v).find? (fun p => p.1 == k) = some (k, v) := by
  induction d with
  | nil => simp [dictInsert]
  | cons p rest ih =>
    rw [dictInsert]
    by_cases hp : p.1 = k
    · rw [if_pos hp]
      simp
    · rw [if_neg hp]
      rw [List.find?_cons_of_neg _ (by simp [hp])]
      exact ih

/-- Building a dict whose last match is `(k, v)` assigns `(k, v)` last. -/
theorem buildCompDict_append_single (ms : List (String × ℚ)) (k : String) (v : ℚ) :
    buildCompDict (ms ++ [(k, v)]) = dictInsert (buildCompDict ms) k v := by
  simp [buildCompDict, List.foldl_append]

theorem except_error_bind {ε α β : Type} (x : ε) (f : α → Except ε β) :
    (Except.error x).bind f = .error x := rfl

/-! ### Claim theorems -/

/-- C4: `check_input_composition` fails with the sum error carrying the
actual computed total exactly when the total deviates from 100 by more
than 0.01 in absolute value; on success it returns nothing (`.ok ()`,
the composition being untouched); `validate({Fe: 90.0, C: 5.0})` fails
with `CompositionSumError{95.0}`. -/
theorem check_input_composition_spec :
    (∀ comp : Composition,
        check_input_composition comp = .error (.compositionSum (sumVals comp)) ↔
          0.01 < |sumVals comp - 100|) ∧
    (∀ comp : Composition,
        check_input_composition comp = .ok () ↔ |sumVals comp - 100| ≤ 0.01) ∧
    check_input_composition [("Fe", 90), ("C", 5)] = .error (.compositionSum 95) := by
  refine ⟨fun comp => ?_, fun comp => ?_, ?_⟩
  · rw [check_input_composition]
    by_cases h : |sumVals comp - 100| ≤ 0.01
    · rw [if_neg (not_not_intro h)]
      simp [not_lt.mpr h]
    · rw [if_pos h]
      simp [not_le.mp h]
  · rw [check_input_composition]
    by_cases h : |sumVals comp - 100| ≤ 0.01
    · rw [if_neg (not_not_intro h)]
      simp [h]
    · rw [if_pos h]
      simp [h]
  · have h95 : sumVals [("Fe", 90), ("C", 5)] = 95 := by norm_num [sumVals]
    rw [check_input_composition, h95, if_pos (by norm_num)]

/-- C5: on a composition that passes sum validation but has a symbol
with no table entry, both conversions fail with the unknown-element
error naming the first missing symbol in input key order, producing no
partial output. -/
theorem conversions_unknown_element (table : String → Option ℚ) (comp : Composition)
    (e : String)
    (hsum : |sumVals comp - 100| ≤ 0.01)
    (hfirst : (comp.find? (fun p => (table p.1).isNone)).map (fun p => p.1) = some e) :
    wt_to_at table comp = .error (.unknownElement e) ∧
    at_to_wt table comp = .error (.unknownElement e) := by
  obtain ⟨q, hq, hqe⟩ := Option.map_eq_some'.mp hfirst
  have hc := check_input_composition_ok comp hsum
  constructor
  · simp only [wt_to_at, hc, except_ok_bind,
      molar_amounts_first_missing table comp q hq, except_error_bind, hqe]
  · simp only [at_to_wt, hc, except_ok_bind,
      mass_contribs_first_missing table comp q hq, except_error_bind, hqe]

theorem sum_Fe50_Xx50 : |sumVals [("Fe", 50), ("Xx", 50)] - 100| ≤ 0.01 := by
  norm_num [sumVals]

theorem conversions_unknown_element_witness :
    wt_to_at lookupMass [("Fe", 50), ("Xx", 50)] = .error (.unknownElement "Xx") ∧
    at_to_wt lookupMass [("Fe", 50), ("Xx", 50)] = .error (.unknownElement "Xx") :=
  conversions_unknown_element lookupMass [("Fe", 50), ("Xx", 50)] "Xx"
    sum_Fe50_Xx50 (by decide)

/-- C10: with non-negative values, a valid sum, strictly positive table
masses and every symbol present, the molar total and the mass total are
strictly positive, so neither conversion divides by zero: both return
their normalised output instead of the division-by-zero error. -/
theorem conversion_totals_pos (table : String → Option ℚ) (comp : Composition)
    (hnn : ∀ p ∈ comp, 0 ≤ p.2)
    (hsum : |sumVals comp - 100| ≤ 0.01)
    (hpos : ∀ e m, table e = some m → 0 < m)
    (hpres : ∀ p ∈ comp, (table p.1).isSome) :
    0 < molarTotal table comp ∧ 0 < massTotal table comp ∧
    wt_to_at table comp =
      .ok (comp.map (fun p =>
        (p.1, p.2 / massOf table p.1 / molarTotal table comp * 100))) ∧
    at_to_wt table comp =
      .ok (comp.map (fun p =>
        (p.1, p.2 * massOf table p.1 / massTotal table comp * 100))) := by
  have h1 := molarTotal_pos table comp hnn hsum hpos hpres
  have h2 := massTotal_pos table comp hnn hsum hpos hpres
  exact ⟨h1, h2, wt_to_at_eq table comp hsum hpres (ne_of_gt h1),
    at_to_wt_eq table comp hsum hpres (ne_of_gt h2)⟩

theorem sum_Fe98_C2 : |sumVals [("Fe", 98), ("C", 2)] - 100| ≤ 0.01 := by
  norm_num [sumVals]

theorem conversion_totals_pos_witness :
    0 < molarTotal lookupMass [("Fe", 98), ("C", 2)] ∧
    0 < massTotal lookupMass [("Fe", 98), ("C", 2)] ∧
    wt_to_at lookupMass [("Fe", 98), ("C", 2)] =
      .ok ([("Fe", (98 : ℚ)), ("C", 2)].map (fun p =>
        (p.1, p.2 / massOf lookupMass p.1 /
          molarTotal lookupMass [("Fe", 98), ("C", 2)] * 100))) ∧
    at_to_wt lookupMass [("Fe", 98), ("C", 2)] =
      .ok ([("Fe", (98 : ℚ)), ("C", 2)].map (fun p =>
        (p.1, p.2 * massOf lookupMass p.1 /
          massTotal lookupMass [("Fe", 98), ("C", 2)] * 100))) :=
  conversion_totals_pos lookupMass [("Fe", 98), ("C", 2)]
    (by decide) sum_Fe98_C2 lookupMass_pos (by decide)

/-- C1 counterexample: a composition whose values sum to exactly 100
and whose symbols are all in the table, on which `wt_to_at` hits the
zero molar total (the source raises `ZeroDivisionError`) instead of
returning the formula's mapping. -/
theorem wt_to_at_formula_ce :
    sumVals [("Fe", 5584500/43834), ("C", -1201100/43834)] = 100 ∧
    (lookupMass "Fe").isSome = true ∧ (lookupMass "C").isSome = true ∧
    wt_to_at lookupMass [("Fe", 5584500/43834), ("C", -1201100/43834)] =
      .error .divisionByZero := by
  refine ⟨by norm_num [sumVals], by decide, by decide, ?_⟩
  have hsum : |sumVals [("Fe", (5584500/43834 : ℚ)), ("C", -1201100/43834)] - 100| ≤ 0.01 := by
    norm_num [sumVals]
  have hc := check_input_composition_ok _ hsum
  have hma := molar_amounts_ok lookupMass
    [("Fe", (5584500/43834 : ℚ)), ("C", -1201100/43834)] (by decide)
  have hFe : lookupMass "Fe" = some 55.845 := rfl
  have hC : lookupMass "C" = some 12.011 := rfl
  simp only [wt_to_at, hc, except_ok_bind, hma]
  rw [if_pos]
  norm_num [sumVals, massOf, hFe, hC]

/-- C1 (amended): for every composition with non-negative values
summing to 100 within 0.01 whose symbols are all in the table,
`wt_to_at` returns the mapping with the same key set whose value at
each element is `(wt / molarMass) / Σ (wt / molarMass) × 100`.  (The
claim as stated, without non-negativity, fails: see the
counterexample, where the molar total vanishes and the source raises
`ZeroDivisionError`.) -/
theorem wt_to_at_formula (wt : Composition)
    (hsum : |sumVals wt - 100| ≤ 0.01)
    (hpres : ∀ p ∈ wt, (lookupMass p.1).isSome)
    (hnn : ∀ p ∈ wt, 0 ≤ p.2) :
    wt_to_at lookupMass wt =
      .ok (wt.map (fun p =>
        (p.1, p.2 / massOf lookupMass p.1 / molarTotal lookupMass wt * 100))) :=
  wt_to_at_eq lookupMass wt hsum hpres
    (ne_of_gt (molarTotal_pos lookupMass wt hnn hsum lookupMass_pos hpres))

theorem wt_to_at_formula_witness :
    wt_to_at lookupMass [("Fe", 98), ("C", 2)] =
      .ok ([("Fe", (98 : ℚ)), ("C", 2)].map (fun p =>
        (p.1, p.2 / massOf lookupMass p.1 /
          molarTotal lookupMass [("Fe", 98), ("C", 2)] * 100))) :=
  wt_to_at_formula [("Fe", 98), ("C", 2)] sum_Fe98_C2 (by decide) (by decide)

/-- C3 counterexample: a composition whose values sum to exactly 100
and whose symbols are all in the table, on which `at_to_wt` hits the
zero mass total (the source raises `ZeroDivisionError`), so its output
does not sum to 100 — there is no output at all. -/
theorem outputs_sum_100_ce :
    sumVals [("Fe", -1201100/43834), ("C", 5584500/43834)] = 100 ∧
    (lookupMass "Fe").isSome = true ∧ (lookupMass "C").isSome = true ∧
    at_to_wt lookupMass [("Fe", -1201100/43834), ("C", 5584500/43834)] =
      .error .divisionByZero := by
  refine ⟨by norm_num [sumVals], by decide, by decide, ?_⟩
  have hsum : |sumVals [("Fe", (-1201100/43834 : ℚ)), ("C", 5584500/43834)] - 100| ≤ 0.01 := by
    norm_num [sumVals]
  have hc := check_input_composition_ok _ hsum
  have hms := mass_contribs_ok lookupMass
    [("Fe", (-1201100/43834 : ℚ)), ("C", 5584500/43834)] (by decide)
  have hFe : lookupMass "Fe" = some 55.845 := rfl
  have hC : lookupMass "C" = some 12.011 := rfl
  simp only [at_to_wt, hc, except_ok_bind, hms]
  rw [if_pos]
  norm_num [sumVals, massOf, hFe, hC]

/-- C3 (amended): for every valid input whose values are in addition
non-negative, both conversions succeed and their output values sum to
exactly 100 under ideal arithmetic.  (Without non-negativity the claim
fails: see the counterexample, where the normalising total vanishes and
the source raises `ZeroDivisionError` instead of producing output.) -/
theorem outputs_sum_100 (comp : Composition)
    (hsum : |sumVals comp - 100| ≤ 0.01)
    (hnn : ∀ p ∈ comp, 0 ≤ p.2)
    (hpres : ∀ p ∈ comp, (lookupMass p.1).isSome) :
    (∃ r, wt_to_at lookupMass comp = .ok r ∧ sumVals r = 100) ∧
    (∃ r, at_to_wt lookupMass comp = .ok r ∧ sumVals r = 100) := by
  have hS := molarTotal_pos lookupMass comp hnn hsum lookupMass_pos hpres
  have hT := massTotal_pos lookupMass comp hnn hsum lookupMass_pos hpres
  constructor
  · refine ⟨_, wt_to_at_eq lookupMass comp hsum hpres (ne_of_gt hS), ?_⟩
    have hl : sumVals (comp.map (fun p => (p.1, p.2 / massOf lookupMass p.1)))
        = molarTotal lookupMass comp := sumVals_map comp _
    have hmain := sumVals_normalize (comp.map (fun p => (p.1, p.2 / massOf lookupMass p.1)))
      (by rw [hl]; exact ne_of_gt hS)
    rw [hl, List.map_map] at hmain
    exact hmain
  · refine ⟨_, at_to_wt_eq lookupMass comp hsum hpres (ne_of_gt hT), ?_⟩
    have hl : sumVals (comp.map (fun p => (p.1, p.2 * massOf lookupMass p.1)))
        = massTotal lookupMass comp := sumVals_map comp _
    have hmain := sumVals_normalize (comp.map (fun p => (p.1, p.2 * massOf lookupMass p.1)))
      (by rw [hl]; exact ne_of_gt hT)
    rw [hl, List.map_map] at hmain
    exact hmain

theorem outputs_sum_100_witness :
    (∃ r, wt_to_at lookupMass [("Fe", 98), ("C", 2)] = .ok r ∧ sumVals r = 100) ∧
    (∃ r, at_to_wt lookupMass [("Fe", 98), ("C", 2)] = .ok r ∧ sumVals r = 100) :=
  outputs_sum_100 [("Fe", 98), ("C", 2)] sum_Fe98_C2 (by decide) (by decide)

/-- The output of `wt_to_at`'s formula sums to exactly 100. -/
theorem sumVals_wt_to_at_output (table : String → Option ℚ) (comp : Composition)
    (hS : molarTotal table comp ≠ 0) :
    sumVals (comp.map (fun p =>
      (p.1, p.2 / massOf table p.1 / molarTotal table comp * 100))) = 100 := by
  have hl : sumVals (comp.map (fun p => (p.1, p.2 / massOf table p.1)))
      = molarTotal table comp := sumVals_map comp _
  have hmain := sumVals_normalize (comp.map (fun p => (p.1, p.2 / massOf table p.1)))
    (by rw [hl]; exact hS)
  rw [hl, List.map_map] at hmain
  exact hmain

/-- The output of `at_to_wt`'s formula sums to exactly 100. -/
theorem sumVals_at_to_wt_output (table : String → Option ℚ) (comp : Composition)
    (hT : massTotal table comp ≠ 0) :
    sumVals (comp.map (fun p =>
      (p.1, p.2 * massOf table p.1 / massTotal table comp * 100))) = 100 := by
  have hl : sumVals (comp.map (fun p => (p.1, p.2 * massOf table p.1)))
      = massTotal table comp := sumVals_map comp _
  have hmain := sumVals_normalize (comp.map (fun p => (p.1, p.2 * massOf table p.1)))
    (by rw [hl]; exact hT)
  rw [hl, List.map_map] at hmain
  exact hmain

/-- Mass total of the `wt_to_at` image of a composition summing to
exactly 100. -/
theorem massTotal_map_div (table : String → Option ℚ) (wt : Composition)
    (hmass : ∀ p ∈ wt, massOf table p.1 ≠ 0) (hw : sumVals wt = 100) (S : ℚ) :
    massTotal table (wt.map (fun p => (p.1, p.2 / massOf table p.1 / S * 100)))
      = 10000 / S := by
  rw [massTotal, List.map_map]
  have hcong : ∀ p ∈ wt,
      ((fun q => q.2 * massOf table q.1) ∘
        (fun p => (p.1, p.2 / massOf table p.1 / S * 100))) p = (100 / S) * p.2 := by
    intro p hp
    have hm := hmass p hp
    simp only [Function.comp]
    have hx : p.2 / massOf table p.1 / S * 100 * massOf table p.1
        = (massOf table p.1 / massOf table p.1) * (100 / S * p.2) := by ring
    rw [hx, div_self hm, one_mul]
  rw [sum_map_congr wt _ _ hcong, sum_map_mul_left]
  show 100 / S * sumVals wt = 10000 / S
  rw [hw]
  ring

/-- Molar total of the `at_to_wt` image of a composition summing to
exactly 100. -/
theorem molarTotal_map_mul (table : String → Option ℚ) (wt : Composition)
    (hmass : ∀ p ∈ wt, massOf table p.1 ≠ 0) (hw : sumVals wt = 100) (T : ℚ) :
    molarTotal table (wt.map (fun p => (p.1, p.2 * massOf table p.1 / T * 100)))
      = 10000 / T := by
  rw [molarTotal, List.map_map]
  have hcong : ∀ p ∈ wt,
      ((fun q => q.2 / massOf table q.1) ∘
        (fun p => (p.1, p.2 * massOf table p.1 / T * 100))) p = (100 / T) * p.2 := by
    intro p hp
    have hm := hmass p hp
    simp only [Function.comp]
    have hx : p.2 * massOf table p.1 / T * 100 / massOf table p.1
        = (massOf table p.1 / massOf table p.1) * (100 / T * p.2) := by ring
    rw [hx, div_self hm, one_mul]
  rw [sum_map_congr wt _ _ hcong, sum_map_mul_left]
  show 100 / T * sumVals wt = 10000 / T
  rw [hw]
  ring

/-- C2 (amended): on a composition with non-negative values summing to
exactly 100 whose symbols are all in the table, the two conversions are
exact inverses in both orders under ideal arithmetic.  (As stated over
the full 100±0.01 tolerance band the round trip is only exact up to the
rescaling factor 100/total, which can move an element by about 1e-4
relative — see the counterexample; and without non-negativity the
first conversion can raise `ZeroDivisionError`.) -/
theorem round_trip_exact (wt : Composition)
    (hsum : sumVals wt = 100)
    (hnn : ∀ p ∈ wt, 0 ≤ p.2)
    (hpres : ∀ p ∈ wt, (lookupMass p.1).isSome) :
    (wt_to_at lookupMass wt).bind (at_to_wt lookupMass) = .ok wt ∧
    (at_to_wt lookupMass wt).bind (wt_to_at lookupMass) = .ok wt := by
  have hsum' : |sumVals wt - 100| ≤ 0.01 := by rw [hsum]; norm_num
  have hSpos := molarTotal_pos lookupMass wt hnn hsum' lookupMass_pos hpres
  have hTpos := massTotal_pos lookupMass wt hnn hsum' lookupMass_pos hpres
  have hS : molarTotal lookupMass wt ≠ 0 := ne_of_gt hSpos
  have hT : massTotal lookupMass wt ≠ 0 := ne_of_gt hTpos
  have hmass : ∀ p ∈ wt, massOf lookupMass p.1 ≠ 0 := by
    intro p hp
    obtain ⟨m, hm⟩ := Option.isSome_iff_exists.mp (hpres p hp)
    have hmp := lookupMass_pos p.1 m hm
    simp only [massOf, hm, Option.getD_some]
    exact ne_of_gt hmp
  constructor
  · rw [wt_to_at_eq lookupMass wt hsum' hpres hS, except_ok_bind]
    have hpresA : ∀ q ∈ wt.map (fun p =>
        (p.1, p.2 / massOf lookupMass p.1 / molarTotal lookupMass wt * 100)),
        (lookupMass q.1).isSome := by
      intro q hq
      obtain ⟨p, hp, rfl⟩ := List.mem_map.mp hq
      exact hpres p hp
    have hsumA := sumVals_wt_to_at_output lookupMass wt hS
    have hTA := massTotal_map_div lookupMass wt hmass hsum (molarTotal lookupMass wt)
    have hTA0 : massTotal lookupMass (wt.map (fun p =>
        (p.1, p.2 / massOf lookupMass p.1 / molarTotal lookupMass wt * 100))) ≠ 0 := by
      rw [hTA]
      exact div_ne_zero (by norm_num) hS
    rw [at_to_wt_eq lookupMass _ (by rw [hsumA]; norm_num) hpresA hTA0, hTA, List.map_map]
    have hpt : ∀ p ∈ wt,
        ((fun q => (q.1, q.2 * massOf lookupMass q.1 /
            (10000 / molarTotal lookupMass wt) * 100)) ∘
          (fun p => (p.1, p.2 / massOf lookupMass p.1 /
            molarTotal lookupMass wt * 100))) p = id p := by
      intro p hp
      have hm := hmass p hp
      obtain ⟨e, v⟩ := p
      simp only [Function.comp, id, Prod.mk.injEq]
      refine ⟨trivial, ?_⟩
      rw [div_div_eq_mul_div]
      have hx : v / massOf lookupMass e / molarTotal lookupMass wt * 100 *
            massOf lookupMass e * molarTotal lookupMass wt / 10000 * 100
          = (massOf lookupMass e / massOf lookupMass e) *
            ((molarTotal lookupMass wt / molarTotal lookupMass wt) * v) := by ring
      rw [hx, div_self hm, div_self hS, one_mul, one_mul]
    rw [List.map_congr_left hpt, List.map_id]
  · rw [at_to_wt_eq lookupMass wt hsum' hpres hT, except_ok_bind]
    have hpresB : ∀ q ∈ wt.map (fun p =>
        (p.1, p.2 * massOf lookupMass p.1 / massTotal lookupMass wt * 100)),
        (lookupMass q.1).isSome := by
      intro q hq
      obtain ⟨p, hp, rfl⟩ := List.mem_map.mp hq
      exact hpres p hp
    have hsumB := sumVals_at_to_wt_output lookupMass wt hT
    have hSB := molarTotal_map_mul lookupMass wt hmass hsum (massTotal lookupMass wt)
    have hSB0 : molarTotal lookupMass (wt.map (fun p =>
        (p.1, p.2 * massOf lookupMass p.1 / massTotal lookupMass wt * 100))) ≠ 0 := by
      rw [hSB]
      exact div_ne_zero (by norm_num) hT
    rw [wt_to_at_eq lookupMass _ (by rw [hsumB]; norm_num) hpresB hSB0, hSB, List.map_map]
    have hpt : ∀ p ∈ wt,
        ((fun q => (q.1, q.2 / massOf lookupMass q.1 /
            (10000 / massTotal lookupMass wt) * 100)) ∘
          (fun p => (p.1, p.2 * massOf lookupMass p.1 /
            massTotal lookupMass wt * 100))) p = id p := by
      intro p hp
      have hm := hmass p hp
      obtain ⟨e, v⟩ := p
      simp only [Function.comp, id, Prod.mk.injEq]
      refine ⟨trivial, ?_⟩
      rw [div_div_eq_mul_div]
      have hx : v * massOf lookupMass e / massTotal lookupMass wt * 100 /
            massOf lookupMass e * massTotal lookupMass wt / 10000 * 100
          = (massOf lookupMass e / massOf lookupMass e) *
            ((massTotal lookupMass wt / massTotal lookupMass wt) * v) := by ring
      rw [hx, div_self hm, div_self hT, one_mul, one_mul]
    rw [List.map_congr_left hpt, List.map_id]

theorem sumeq_Fe98_C2 : sumVals [("Fe", 98), ("C", 2)] = 100 := by
  norm_num [sumVals]

theorem round_trip_exact_witness :
    (wt_to_at lookupMass [("Fe", 98), ("C", 2)]).bind (at_to_wt lookupMass) =
      .ok [("Fe", 98), ("C", 2)] ∧
    (at_to_wt lookupMass [("Fe", 98), ("C", 2)]).bind (wt_to_at lookupMass) =
      .ok [("Fe", 98), ("C", 2)] :=
  round_trip_exact [("Fe", 98), ("C", 2)] sumeq_Fe98_C2 (by decide) (by decide)

/-- C2 counterexample: `{Fe: 98.01, C: 2.0}` sums to 100.01, inside the
accepted tolerance band, yet the round trip rescales it by 100/100.01,
moving Fe by about 1e-4 relative — far outside the claimed 1e-6
relative tolerance. -/
theorem round_trip_exact_ce :
    |sumVals [("Fe", 98.01), ("C", 2)] - 100| ≤ 0.01 ∧
    (lookupMass "Fe").isSome = true ∧ (lookupMass "C").isSome = true ∧
    (wt_to_at lookupMass [("Fe", 98.01), ("C", 2)]).bind (at_to_wt lookupMass) =
      .ok [("Fe", 980100/10001), ("C", 20000/10001)] ∧
    ¬ (|980100/10001 - (98.01 : ℚ)| ≤ 98.01 * (1/1000000)) := by
  have hFe : lookupMass "Fe" = some 55.845 := rfl
  have hC : lookupMass "C" = some 12.011 := rfl
  have h1100 : |(1/100 : ℚ)| = 1/100 := abs_of_nonneg (by norm_num)
  have hsum' : |sumVals [("Fe", (98.01 : ℚ)), ("C", 2)] - 100| ≤ 0.01 := by
    norm_num [sumVals, h1100]
  have hlast : ¬ (|(980100/10001 : ℚ) - 98.01| ≤ 98.01 * (1/1000000)) := by
    have hd : (980100/10001 : ℚ) - 98.01 = -(9801/1000100) := by norm_num
    rw [hd, abs_neg, abs_of_nonneg (by norm_num : (0 : ℚ) ≤ 9801/1000100)]
    norm_num
  refine ⟨hsum', by decide, by decide, ?_, hlast⟩
  have hpres : ∀ p ∈ [("Fe", (98.01 : ℚ)), ("C", 2)], (lookupMass p.1).isSome := by decide
  have hS : molarTotal lookupMass [("Fe", (98.01 : ℚ)), ("C", 2)] ≠ 0 := by
    norm_num [molarTotal, massOf, hFe, hC]
  rw [wt_to_at_eq lookupMass _ hsum' hpres hS, except_ok_bind]
  have hpresA : ∀ q ∈ [("Fe", (98.01 : ℚ)), ("C", 2)].map (fun p =>
      (p.1, p.2 / massOf lookupMass p.1 /
        molarTotal lookupMass [("Fe", (98.01 : ℚ)), ("C", 2)] * 100)),
      (lookupMass q.1).isSome := by
    intro q hq
    obtain ⟨p, hp, rfl⟩ := List.mem_map.mp hq
    exact hpres p hp
  have hsumA : |sumVals ([("Fe", (98.01 : ℚ)), ("C", 2)].map (fun p =>
      (p.1, p.2 / massOf lookupMass p.1 /
        molarTotal lookupMass [("Fe", (98.01 : ℚ)), ("C", 2)] * 100))) - 100| ≤ 0.01 := by
    rw [sumVals_wt_to_at_output lookupMass _ hS]
    norm_num
  have hTA : massTotal lookupMass ([("Fe", (98.01 : ℚ)), ("C", 2)].map (fun p =>
      (p.1, p.2 / massOf lookupMass p.1 /
        molarTotal lookupMass [("Fe", (98.01 : ℚ)), ("C", 2)] * 100))) ≠ 0 := by
    norm_num [massTotal, molarTotal, massOf, hFe, hC]
  rw [at_to_wt_eq lookupMass _ hsumA hpresA hTA]
  norm_num [massTotal, molarTotal, massOf, hFe, hC]

/-- The dict-literal form of the worked parser example. -/
theorem dict_literal_FeC :
    parse_dict_literal "\x7b\"Fe\": 98.0, \"C\": 2.0\x7d" = some [("Fe", 98), ("C", 2)] := by
  have htok : dict_literal_tokens "\x7b\"Fe\": 98.0, \"C\": 2.0\x7d" =
      some [("Fe", ⟨98, 0, 1⟩), ("C", ⟨2, 0, 1⟩)] := by decide
  rw [parse_dict_literal, htok, Option.map_some']
  norm_num [buildCompDict, dictInsert, NumLit.toRat]
  decide

/-- C9: whenever the structured-literal stage fails, the failure is
swallowed: the caller observes exactly the token-scan stage's outcome. -/
theorem dict_literal_failure_swallowed (s : String)
    (h : parse_dict_literal s = none) :
    parse_composition_input s = token_scan_stage s := by
  rw [parse_composition_input, h, Option.elim_none]

theorem dict_literal_failure_swallowed_witness :
    parse_composition_input "gibberish" = token_scan_stage "gibberish" :=
  dict_literal_failure_swallowed "gibberish" (by decide)

/-- C8: every input accepted by the structured-literal stage parses to
that stage's mapping; in particular the brace-delimited worked example
yields `{Fe: 98.0, C: 2.0}`. -/
theorem dict_literal_spec :
    (∀ s d, parse_dict_literal s = some d → parse_composition_input s = .ok d) ∧
    parse_composition_input "\x7b\"Fe\": 98.0, \"C\": 2.0\x7d" = .ok [("Fe", 98), ("C", 2)] := by
  have hok : ∀ s d, parse_dict_literal s = some d → parse_composition_input s = .ok d := by
    intro s d h
    rw [parse_composition_input, h, Option.elim_some]
  exact ⟨hok, hok _ _ dict_literal_FeC⟩

theorem dict_literal_spec_witness :
    parse_composition_input "\x7b\"Fe\": 98.0, \"C\": 2.0\x7d" = .ok [("Fe", 98), ("C", 2)] :=
  dict_literal_spec.1 "\x7b\"Fe\": 98.0, \"C\": 2.0\x7d" [("Fe", 98), ("C", 2)] dict_literal_FeC

/-- C6: the token scan collects the non-overlapping pattern matches in
order of appearance, with later duplicate keys overwriting earlier
values, and `parse("Fe: 98.0, C: 2.0")` gives `{Fe: 98.0, C: 2.0}` in
that order. -/
theorem token_scan_spec :
    parse_composition_input "Fe: 98.0, C: 2.0" = .ok [("Fe", 98), ("C", 2)] ∧
    parse_composition_input "Fe:1, Fe:2" = .ok [("Fe", 2)] ∧
    (∀ ms : List (String × ℚ), ∀ k v,
      (buildCompDict (ms ++ [(k, v)])).find? (fun p => p.1 == k) = some (k, v)) := by
  refine ⟨?_, ?_, fun ms k v => ?_⟩
  · have h0 : parse_dict_literal "Fe: 98.0, C: 2.0" = none := by decide
    have hscan : re_findall "Fe: 98.0, C: 2.0" = [("Fe", ⟨98, 0, 1⟩), ("C", ⟨2, 0, 1⟩)] := by
      decide
    rw [parse_composition_input, h0, Option.elim_none, token_scan_stage, hscan]
    norm_num [buildCompDict, dictInsert, NumLit.toRat]
    decide
  · have h0 : parse_dict_literal "Fe:1, Fe:2" = none := by decide
    have hscan : re_findall "Fe:1, Fe:2" = [("Fe", ⟨1, 0, 0⟩), ("Fe", ⟨2, 0, 0⟩)] := by
      decide
    rw [parse_composition_input, h0, Option.elim_none, token_scan_stage, hscan]
    norm_num [buildCompDict, dictInsert, NumLit.toRat]
  · rw [buildCompDict_append_single, find?_dictInsert]

/-- C7 counterexample: the input `"{}"` yields no key/value pair from
either rule, yet `parse` does not raise `ParseError`: the literal stage
returns the empty mapping. -/
theorem parse_error_iff_ce :
    re_findall "\x7b\x7d" = [] ∧ parse_composition_input "\x7b\x7d" = .ok [] := by
  constructor
  · decide
  · decide

/-- C7 (amended): `parse` fails with `ParseError` exactly when the
structured-literal stage yields no mapping and the token scan yields no
match; `parse("gibberish")` fails with `ParseError`; and a mapping
produced by the token-scan stage is never empty.  (As stated the claim
fails on `"{}"`: the literal stage returns an empty mapping although
neither rule yields a key/value pair.) -/
theorem parse_error_iff :
    (∀ s, parse_composition_input s = .error .parseError ↔
      parse_dict_literal s = none ∧ re_findall s = []) ∧
    parse_composition_input "gibberish" = .error .parseError ∧
    (∀ s d, parse_dict_literal s = none → parse_composition_input s = .ok d → d ≠ []) := by
  refine ⟨fun s => ?_, by decide, fun s d h1 h2 => ?_⟩
  · rcases h : parse_dict_literal s with _ | d
    · rw [parse_composition_input, h, Option.elim_none, token_scan_stage]
      rcases hm : re_findall s with _ | ⟨m, ms⟩
      · simp
      · simp
    · rw [parse_composition_input, h, Option.elim_some]
      simp
  · rw [parse_composition_input, h1, Option.elim_none, token_scan_stage] at h2
    rcases hm : re_findall s with _ | ⟨m, ms⟩
    · rw [hm] at h2
      simp at h2
    · rw [hm] at h2
      simp only [List.isEmpty_cons, if_false, Bool.false_eq_true] at h2
      have hd : d = buildCompDict ((m :: ms).map (fun p => (p.1, p.2.toRat))) := by
        injection h2.symm
      rw [hd]
      exact buildCompDict_ne_nil _ (by simp)

theorem parse_error_iff_witness :
    parse_composition_input "gibberish" = .error .parseError :=
  (parse_error_iff.1 "gibberish").mpr ⟨by decide, by decide⟩


end MaterialsCal
